import Mathlib

/-!
# Verification of the qui QML binding layer

Shallow embedding of the application lifecycle, logging bridge and view
code of the qui crate (src/app.rs, src/quick_view.rs), together with
theorems settling the specification's claims against it.

The lifecycle code manipulates one piece of process-wide state: the slot
APP_EXTRA : RwLock (Weak AppExtra), plus the strong count of the
Arc AppExtra shared by App and its AppRef handles, and the native
application object behind qlueAppNew and qlueAppDelete.  The model below
records exactly that state and translates each Rust function into a state
transformer which either returns normally or records the panic it raises.
-/

namespace Qui

/-- Kinds of panic the lifecycle code raises: the fatal-usage assertions in
App.new and in the Drop implementation of App, and the unwrap of a poisoned
RwLock guard. -/
inductive PanicKind where
  | fatalUsage
  | poisonedLock
  deriving DecidableEq, Repr

/-- Process-wide state touched by src/app.rs.

* poisoned: whether the APP_EXTRA RwLock is poisoned (a panic happened
  while a write guard was held);
* weakSet: whether APP_EXTRA holds a weak pointer to the current AppExtra
  (as opposed to the dangling Weak.new it starts and is reset with);
* strong: the strong count of the current Arc AppExtra; the App's own
  AppRef field contributes one, each outstanding AppRef one more; a weak
  pointer upgrades exactly when weakSet holds and strong is positive;
* nativeAlive: whether the native application object exists (qlueAppNew
  called and not yet qlueAppDelete);
* appAlive: whether an App value currently exists. -/
structure World where
  poisoned : Bool
  weakSet : Bool
  strong : Nat
  nativeAlive : Bool
  appAlive : Bool
  deriving DecidableEq, Repr

/-- Result of running one lifecycle operation: normal return, or a panic
(with the state as it is left at the moment the panic escapes). -/
inductive StepResult where
  | ok (w : World)
  | panicked (k : PanicKind) (w : World)
  deriving DecidableEq, Repr

/-- The Global Weak Slot resolves to a live instance: the stored weak
pointer upgrades successfully. -/
def World.live (w : World) : Prop := w.weakSet = true ∧ 0 < w.strong

instance (w : World) : Decidable w.live := by
  unfold World.live
  infer_instance

/-- State at process start: APP_EXTRA = RwLock.new (Weak.new ()), no Arc,
no native application, no App value. -/
def initWorld : World :=
  { poisoned := false, weakSet := false, strong := 0
    nativeAlive := false, appAlive := false }

/-- A world with a live App, a set slot, an unpoisoned lock and strong
count n (n = 1: no outstanding AppRef; n = 2: one outstanding AppRef). -/
def liveWorld (n : Nat) : World :=
  { poisoned := false, weakSet := true, strong := n, nativeAlive := true, appAlive := true }

/-- App.new (src/app.rs lines 39-53).  Takes the write lock on APP_EXTRA
(unwrap panics if the lock is poisoned), asserts that the stored weak
pointer does not upgrade (panicking inside the write guard poisons the
lock), otherwise builds a fresh AppExtra behind an Arc with strong count
one, calls qlueAppNew, publishes a downgraded pointer into the slot and
returns the App. -/
def appNew (w : World) : StepResult :=
  if w.poisoned = true then .panicked .poisonedLock w
  else if w.live then .panicked .fatalUsage { w with poisoned := true }
  else .ok { w with weakSet := true, strong := 1, nativeAlive := true, appAlive := true }

/-- Drop for App (src/app.rs lines 66-81).  Takes the write lock (unwrap
panics if poisoned; the App's AppRef field is still dropped while
unwinding, so the strong count drops by one).  Reads rc, the strong count.
If rc exceeds one, a clone of the reference is leaked with mem.forget
(count up by one) and the assertion fails while the guard is held
(poisoning the lock); field drop during unwind takes the count back down
by one, so the count never reaches zero and qlueAppDelete is not called.
Otherwise the slot is reset to Weak.new, qlueAppDelete runs, and the
App's own reference is dropped, taking the count to zero. -/
def appDrop (w : World) : StepResult :=
  if w.poisoned = true then
    .panicked .poisonedLock { w with strong := w.strong - 1, appAlive := false }
  else if 1 < w.strong then
    .panicked .fatalUsage { w with poisoned := true, appAlive := false }
  else
    .ok { w with weakSet := false, nativeAlive := false, strong := w.strong - 1,
                 appAlive := false }

/-- AppRef.get (src/app.rs lines 104-110).  try_read on APP_EXTRA: on
failure (a writer holds the lock, or the lock is poisoned) return none at
once; on success upgrade the weak pointer and wrap a live result in a new
AppRef (one more strong reference).  The contended flag is the
environment's choice of whether a writer holds the lock at that instant. -/
def appRefGet (contended : Bool) (w : World) : Option Unit × World :=
  if contended = true ∨ w.poisoned = true then (none, w)
  else if w.live then (some (), { w with strong := w.strong + 1 })
  else (none, w)

/-- Clone for AppRef (src/app.rs lines 133-137): clone the inner Arc, one
more strong reference; total, no failure path. -/
def cloneRef (w : World) : World := { w with strong := w.strong + 1 }

/-- Dropping an AppRef: the inner Arc is released, one less strong
reference. -/
def dropRef (w : World) : World := { w with strong := w.strong - 1 }

/-- There is a free-standing AppRef beyond the reference owned by the App
value itself. -/
def hasAppRef (w : World) : Prop := (if w.appAlive = true then 1 else 0) < w.strong

instance (w : World) : Decidable (hasAppRef w) := by
  unfold hasAppRef
  infer_instance

/-- Worlds reachable by sequences of operations that return normally
(spec section 7 makes both panic classes process-terminating, so a
sequence of operations is a sequence of successful calls).  get may be
attempted under any contention; cloning needs some reference to clone
(the App's own, via new_ref, or an outstanding AppRef); dropping a
free-standing AppRef needs one to exist. -/
inductive Reachable : World → Prop where
  | init : Reachable initWorld
  | new {w w' : World} : Reachable w → appNew w = .ok w' → Reachable w'
  | drop {w w' : World} : Reachable w → w.appAlive = true → appDrop w = .ok w' → Reachable w'
  | get {w w' : World} {c : Bool} {r : Option Unit} :
      Reachable w → appRefGet c w = (r, w') → Reachable w'
  | cloneR {w : World} : Reachable w → 0 < w.strong → Reachable (cloneRef w)
  | dropR {w : World} : Reachable w → hasAppRef w → Reachable (dropRef w)

/-! ## Logging bridge (src/app.rs lines 169-189) -/

/-- Native severity levels, the constructors of clue's ClueLogLevel enum. -/
inductive ClueLogLevel where
  | ClueLogLevelError
  | ClueLogLevelWarn
  | ClueLogLevelInfo
  | ClueLogLevelDebug
  | ClueLogLevelTrace
  deriving DecidableEq, Repr

/-- Host logging levels, the constructors of log's LogLevel enum. -/
inductive LogLevel where
  | Error
  | Warn
  | Info
  | Debug
  | Trace
  deriving DecidableEq, Repr

/-- A host-side panic raised while a log record is forwarded (for example
inside the host logging machinery invoked by the log macro). -/
inductive HostPanic where
  | panicked
  deriving DecidableEq, Repr

/-- A structured record handed to the host logging system by forward_log:
level, target (logger name), source file, source line, message. -/
structure LogRecord where
  level : LogLevel
  target : List Char
  file : List Char
  line : Nat
  msg : List Char
  deriving DecidableEq, Repr

/-- std::panic::catch_unwind specialised to the callback body: a normal
return is observed as some, an unwinding panic is caught and observed as
none; the panic never continues past this point. -/
def catchUnwind {ε α : Type} (x : Except ε α) : Option α :=
  match x with
  | .ok a => some a
  | .error _ => none

/-! ## UTF-8 encoding and lossy decoding

A Rust String or str is a UTF-8 byte buffer; into_bytes and the string
views passed over the FFI expose those bytes.  utf8EncodeChar writes the
standard UTF-8 encoding of a Unicode scalar value.

Modelled from the spec: from_string_view_lossy and the decoding inside
get_ffi_value live in the clue crate, outside this repository; the spec
requires all string views to be decoded as UTF-8 with lossy replacement of
invalid sequences (String::from_utf8_lossy semantics).  utf8DecodeLossy
below is such a decoder: every well-formed scalar-value encoding is
decoded to its scalar value, every invalid byte is replaced by U+FFFD. -/

/-- UTF-8 continuation byte, 0x80 to 0xBF. -/
def IsCont (b : Nat) : Prop := 0x80 ≤ b ∧ b ≤ 0xBF

instance (b : Nat) : Decidable (IsCont b) := by
  unfold IsCont
  infer_instance

/-- Constraint on the first continuation byte of a three-byte sequence:
after a leading 0xE0 it must be at least 0xA0 (no overlong encodings),
after 0xED at most 0x9F (no surrogates), and it is a continuation byte. -/
def Cont3 (b0 b1 : Nat) : Prop :=
  (b0 = 0xE0 → 0xA0 ≤ b1) ∧ (b0 = 0xED → b1 ≤ 0x9F) ∧ IsCont b1

instance (b0 b1 : Nat) : Decidable (Cont3 b0 b1) := by
  unfold Cont3
  infer_instance

/-- Constraint on the first continuation byte of a four-byte sequence:
after a leading 0xF0 it must be at least 0x90 (no overlong encodings),
after 0xF4 at most 0x8F (no scalar values beyond U+10FFFF), and it is a
continuation byte. -/
def Cont4 (b0 b1 : Nat) : Prop :=
  (b0 = 0xF0 → 0x90 ≤ b1) ∧ (b0 = 0xF4 → b1 ≤ 0x8F) ∧ IsCont b1

instance (b0 b1 : Nat) : Decidable (Cont4 b0 b1) := by
  unfold Cont4
  infer_instance

/-- The Unicode replacement character U+FFFD. -/
def replChar : Char := Char.ofNat 0xFFFD

/-- UTF-8 encoding of one Unicode scalar value. -/
def utf8EncodeChar (c : Char) : List Nat :=
  let v := c.toNat
  if v < 0x80 then [v]
  else if v < 0x800 then [0xC0 + v / 64, 0x80 + v % 64]
  else if v < 0x10000 then [0xE0 + v / 4096, 0x80 + v / 64 % 64, 0x80 + v % 64]
  else [0xF0 + v / 262144, 0x80 + v / 4096 % 64, 0x80 + v / 64 % 64, 0x80 + v % 64]

/-- UTF-8 encoding of a sequence of scalar values (the byte content of a
Rust String or str holding those characters). -/
def utf8EncodeStr : List Char → List Nat
  | [] => []
  | c :: cs => utf8EncodeChar c ++ utf8EncodeStr cs

/-- One step of lossy UTF-8 decoding: given the first byte and the
remaining bytes, produce the decoded character (the replacement character
for any invalid or truncated sequence) and the bytes decoding resumes at. -/
def utf8DecodeStep (b0 : Nat) (bs : List Nat) : Char × List Nat :=
  if b0 < 0x80 then (Char.ofNat b0, bs)
  else if b0 < 0xC2 then (replChar, bs)
  else if b0 < 0xE0 then
    match bs with
    | [] => (replChar, [])
    | b1 :: bs1 =>
      if IsCont b1 then (Char.ofNat ((b0 - 0xC0) * 64 + (b1 - 0x80)), bs1)
      else (replChar, b1 :: bs1)
  else if b0 < 0xF0 then
    match bs with
    | [] => (replChar, [])
    | [b1] => (replChar, [b1])
    | b1 :: b2 :: bs2 =>
      if Cont3 b0 b1 ∧ IsCont b2 then
        (Char.ofNat ((b0 - 0xE0) * 4096 + (b1 - 0x80) * 64 + (b2 - 0x80)), bs2)
      else (replChar, b1 :: b2 :: bs2)
  else if b0 ≤ 0xF4 then
    match bs with
    | [] => (replChar, [])
    | [b1] => (replChar, [b1])
    | [b1, b2] => (replChar, [b1, b2])
    | b1 :: b2 :: b3 :: bs3 =>
      if Cont4 b0 b1 ∧ IsCont b2 ∧ IsCont b3 then
        (Char.ofNat ((b0 - 0xF0) * 262144 + (b1 - 0x80) * 4096 +
            (b2 - 0x80) * 64 + (b3 - 0x80)), bs3)
      else (replChar, b1 :: b2 :: b3 :: bs3)
  else (replChar, bs)

/-- Fuel-driven decoding loop: one utf8DecodeStep per character; fuel at
least the byte count never runs out, since every step consumes at least
one byte. -/
def utf8DecodeLoop : Nat → List Nat → List Char
  | _, [] => []
  | 0, _ :: _ => []
  | fuel + 1, b0 :: bs =>
    (utf8DecodeStep b0 bs).1 :: utf8DecodeLoop fuel (utf8DecodeStep b0 bs).2

/-- Lossy UTF-8 decoding: well-formed scalar-value encodings are decoded,
any invalid byte becomes U+FFFD and decoding resumes after it. -/
def utf8DecodeLossy (l : List Nat) : List Char := utf8DecodeLoop l.length l

/-- forward_log (src/app.rs lines 175-189): maps the native severity onto
the host level with the explicit five-arm match, decodes target, file and
message lossily, and hands the assembled record to the host logging
machinery (the log macro), which may itself fail; that failure propagates
out of forward_log. -/
def forward_log (emit : LogRecord → Except HostPanic Unit)
    (level : ClueLogLevel) (msg : List Nat) (file : List Nat) (line : Nat)
    (target : List Nat) : Except HostPanic Unit :=
  let hostLevel :=
    match level with
    | .ClueLogLevelError => LogLevel.Error
    | .ClueLogLevelWarn => LogLevel.Warn
    | .ClueLogLevelInfo => LogLevel.Info
    | .ClueLogLevelDebug => LogLevel.Debug
    | .ClueLogLevelTrace => LogLevel.Trace
  emit { level := hostLevel, target := utf8DecodeLossy target
         file := utf8DecodeLossy file, line := line, msg := utf8DecodeLossy msg }

/-- The severity mapping of forward_log on its own, for direct inspection. -/
def forwardLevel (level : ClueLogLevel) : LogLevel :=
  match level with
  | .ClueLogLevelError => LogLevel.Error
  | .ClueLogLevelWarn => LogLevel.Warn
  | .ClueLogLevelInfo => LogLevel.Info
  | .ClueLogLevelDebug => LogLevel.Debug
  | .ClueLogLevelTrace => LogLevel.Trace

/-- The extern log callback (src/app.rs lines 169-173): runs forward_log
under catch_unwind and discards the outcome, so the callback itself always
returns normally to the native caller. -/
def log (emit : LogRecord → Except HostPanic Unit) (level : ClueLogLevel)
    (msg : List Nat) (file : List Nat) (line : Nat) (target : List Nat) :
    Except HostPanic Unit :=
  match catchUnwind (forward_log emit level msg file line target) with
  | _ => .ok ()

/-! ## Application name surface (src/app.rs lines 112-122)

Modelled from the spec: qlueAppSetName and qlueAppName belong to the
native toolkit surface, outside this repository.  Per the spec the native
surface stores the display name set through it and returns it from the
getter (the round trip is lossless for valid UTF-8, and a malformed native
response is decoded with replacement).  The native side is therefore a
byte buffer holding the application name. -/

/-- The native application's stored state visible through this layer: the
display-name byte buffer. -/
structure NativeApp where
  name : List Nat
  deriving DecidableEq, Repr

/-- clue's to_string_view on a str: a borrowed view of its UTF-8 bytes. -/
def to_string_view (s : List Char) : List Nat := utf8EncodeStr s

/-- Modelled from the spec: the native setter stores the passed bytes. -/
def qlueAppSetName (v : List Nat) (_n : NativeApp) : NativeApp := { name := v }

/-- Modelled from the spec: the native getter returns the stored bytes. -/
def qlueAppName (n : NativeApp) : List Nat := n.name

/-- AppRef.set_name (src/app.rs lines 119-122): passes a view of the
string's bytes to the native setter. -/
def set_name (s : List Char) (n : NativeApp) : NativeApp :=
  qlueAppSetName (to_string_view s) n

/-- AppRef.name (src/app.rs lines 112-117): reads the native name bytes
through get_ffi_value and decodes them lossily into an owned string
(modelled from the spec for the decoding done inside the clue crate). -/
def name (n : NativeApp) : List Char := utf8DecodeLossy (qlueAppName n)

/-- String-level wrapper of set_name. -/
def setNameString (s : String) (n : NativeApp) : NativeApp := set_name s.data n

/-- String-level wrapper of name. -/
def nameString (n : NativeApp) : String := String.mk (name n)

/-! ## Argument capture (src/app.rs lines 139-163) -/

/-- AppExtra as built by AppExtra.new: argc, the owned argument byte
buffers (env::args mapped through String::into_bytes, i.e. each
argument's UTF-8 bytes), and argv, one pointer per buffer to its first
byte.  A pointer to the buffer of index i is modelled as i. -/
structure AppExtra where
  argc : Int
  args : List (List Nat)
  argv : List Nat
  deriving DecidableEq, Repr

/-- AppExtra.new (src/app.rs lines 149-163), with the process argument
list env::args as explicit input: args collects each argument's byte
buffer via into_bytes, argv collects a mutable pointer to each buffer,
argc is the number of arguments. -/
def AppExtra.new (osArgs : List String) : AppExtra :=
  let args := osArgs.map (fun s => utf8EncodeStr s.data)
  let argv := List.range args.length
  { argc := Int.ofNat args.length, args := args, argv := argv }

/-- The call made by App.new (src/app.rs lines 43-51): qlueAppNew receives
a pointer to extra.argc, the pointer extra.argv.as_mut_ptr to the argument
vector, and Some log, the logging callback.  The record collects exactly
what is passed. -/
structure CreateCall where
  argcPassed : Int
  argvPassed : List Nat
  callbackPassed : Bool
  deriving DecidableEq, Repr

/-- Arguments App.new hands to the native create-application entry point,
as a function of the process argument list. -/
def appNewCall (osArgs : List String) : CreateCall :=
  let extra := AppExtra.new osArgs
  { argcPassed := extra.argc, argvPassed := extra.argv, callbackPassed := true }

/-! ## QuickView (src/quick_view.rs) -/

/-- State of the single native view slot this model tracks: whether the
native QQuickView exists, the last source URL loaded into it, and its
visibility. -/
structure ViewState where
  alive : Bool
  source : Option (List Char)
  visible : Bool
  deriving DecidableEq, Repr

/-- The full state seen by the QuickView code: the application-side state
(Global Weak Slot, reference counts, native application) and the view's
own native handle state. -/
structure GuiWorld where
  app : World
  view : ViewState
  deriving DecidableEq, Repr

/-- QuickView.new (src/quick_view.rs lines 32-40): takes a borrowed App
argument used only as a lifetime bound (it is discarded at runtime) and
calls qlueQuickViewNew, creating the native view. -/
def quickViewNew (_app : World) (g : GuiWorld) : GuiWorld :=
  { g with view := { alive := true, source := none, visible := false } }

/-- QuickView.set_source (src/quick_view.rs lines 42-47): passes the URL
string to qlueQuickViewSetSource on the view's own handle. -/
def quickViewSetSource (url : List Char) (g : GuiWorld) : GuiWorld :=
  { g with view := { g.view with source := some url } }

/-- QuickView.show (src/quick_view.rs lines 49-52): calls
qlueQuickViewShow on the view's own handle. -/
def quickViewShow (g : GuiWorld) : GuiWorld :=
  { g with view := { g.view with visible := true } }

/-- Drop for QuickView (src/quick_view.rs lines 55-59): calls
qlueQuickViewDelete on the view's own handle. -/
def quickViewDrop (g : GuiWorld) : GuiWorld :=
  { g with view := { g.view with alive := false } }

/-! ## Theorems -/

/-- Invariant of the worlds reachable by successful operation sequences:
the lock is never poisoned, the Global Weak Slot and the native
application mirror whether an App value exists, and the strong count is
positive exactly while one does. -/
theorem reachable_inv {w : World} (h : Reachable w) :
    w.poisoned = false ∧ w.weakSet = w.appAlive ∧ w.nativeAlive = w.appAlive ∧
      (w.appAlive = true → 0 < w.strong) ∧ (w.appAlive = false → w.strong = 0) := by
  induction h with
  | init => simp [initWorld]
  | @new v w' hr hok ih =>
    obtain ⟨i1, i2, i3, i4, i5⟩ := ih
    have hnp : ¬v.poisoned = true := by simp [i1]
    unfold appNew at hok
    rw [if_neg hnp] at hok
    by_cases hl : v.live
    · rw [if_pos hl] at hok
      exact absurd hok (by simp)
    · rw [if_neg hl] at hok
      injection hok with hw
      subst hw
      simp [i1]
  | @drop v w' hr happ hok ih =>
    obtain ⟨i1, i2, i3, i4, i5⟩ := ih
    have hnp : ¬v.poisoned = true := by simp [i1]
    unfold appDrop at hok
    rw [if_neg hnp] at hok
    by_cases hm : 1 < v.strong
    · rw [if_pos hm] at hok
      exact absurd hok (by simp)
    · rw [if_neg hm] at hok
      injection hok with hw
      subst hw
      refine ⟨i1, rfl, rfl, by simp, fun _ => ?_⟩
      show v.strong - 1 = 0
      omega
  | @get v w' c r hr hok ih =>
    obtain ⟨i1, i2, i3, i4, i5⟩ := ih
    unfold appRefGet at hok
    by_cases h1 : c = true ∨ v.poisoned = true
    · rw [if_pos h1] at hok
      injection hok with hr1 hw
      subst hw
      exact ⟨i1, i2, i3, i4, i5⟩
    · rw [if_neg h1] at hok
      by_cases hl : v.live
      · rw [if_pos hl] at hok
        injection hok with hr1 hw
        subst hw
        obtain ⟨hws, hst⟩ := hl
        refine ⟨i1, i2, i3, fun _ => Nat.succ_pos _, fun hA => ?_⟩
        have hA' : v.appAlive = false := hA
        have hT : v.appAlive = true := by rw [← i2]; exact hws
        rw [hT] at hA'
        simp at hA'
      · rw [if_neg hl] at hok
        injection hok with hr1 hw
        subst hw
        exact ⟨i1, i2, i3, i4, i5⟩
  | @cloneR v hr hpos ih =>
    obtain ⟨i1, i2, i3, i4, i5⟩ := ih
    refine ⟨i1, i2, i3, fun _ => Nat.succ_pos _, fun hA => ?_⟩
    have hA' : v.appAlive = false := hA
    exfalso
    have h0 : v.strong = 0 := i5 hA'
    omega
  | @dropR v hr href ih =>
    obtain ⟨i1, i2, i3, i4, i5⟩ := ih
    unfold hasAppRef at href
    by_cases hA : v.appAlive = true
    · rw [if_pos hA] at href
      refine ⟨i1, i2, i3, fun _ => ?_, fun hF => ?_⟩
      · show 0 < v.strong - 1
        omega
      · have hF' : v.appAlive = false := hF
        rw [hF'] at hA
        simp at hA
    · have hA' : v.appAlive = false := by
        revert hA
        cases v.appAlive <;> simp
      rw [if_neg hA] at href
      exfalso
      have h0 : v.strong = 0 := i5 hA'
      omega

/-- C1: in every reachable world, App.new while the Global Weak Slot
resolves to a live instance fails the fatal assertion (the panic escapes
with the lock poisoned) and returns no handle; with no live instance it
returns a fresh handle and publishes the weak pointer: the slot is set,
the new shared state has strong count one and the native application has
been created. -/
theorem c1_single_instance {w : World} (h : Reachable w) :
    (w.live → appNew w = .panicked .fatalUsage { w with poisoned := true }) ∧
      (¬w.live → appNew w =
        .ok { w with weakSet := true, strong := 1, nativeAlive := true,
                     appAlive := true }) := by
  have hp : w.poisoned = false := (reachable_inv h).1
  have hnp : ¬w.poisoned = true := by simp [hp]
  constructor
  · intro hl
    unfold appNew
    rw [if_neg hnp, if_pos hl]
  · intro hl
    unfold appNew
    rw [if_neg hnp, if_neg hl]

/-- Witness for C1 at concrete worlds: from the initial world App.new
succeeds and publishes the instance; calling it again in the resulting
world hits the fatal assertion. -/
theorem c1_single_instance_witness :
    appNew initWorld =
      .ok { poisoned := false, weakSet := true, strong := 1, nativeAlive := true,
            appAlive := true } ∧
    appNew { poisoned := false, weakSet := true, strong := 1, nativeAlive := true,
             appAlive := true } =
      .panicked .fatalUsage
        { poisoned := true, weakSet := true, strong := 1, nativeAlive := true,
          appAlive := true } := by
  constructor
  · exact (c1_single_instance Reachable.init).2 (by decide)
  · exact (c1_single_instance
      (Reachable.new Reachable.init (by decide))).1 (by decide)

/-- C2: in every reachable world with a live App, dropping it with
outstanding AppRef handles (strong count above one) fails the fatal
assertion: the drop leaks the reference being dropped, so the resulting
strong count equals the old one and never reaches zero, and qlueAppDelete
is not invoked (the native application stays alive).  With no outstanding
handle, the drop clears the Global Weak Slot and deletes the native
application. -/
theorem c2_drop_behavior {w : World} (h : Reachable w) (ha : w.appAlive = true) :
    (1 < w.strong →
      appDrop w = .panicked .fatalUsage { w with poisoned := true, appAlive := false } ∧
        ({ w with poisoned := true, appAlive := false } : World).strong = w.strong ∧
        ({ w with poisoned := true, appAlive := false } : World).nativeAlive = true) ∧
      (w.strong = 1 →
        appDrop w = .ok { w with weakSet := false, nativeAlive := false, strong := 0,
                                 appAlive := false }) := by
  have hp : w.poisoned = false := (reachable_inv h).1
  have hna : w.nativeAlive = w.appAlive := (reachable_inv h).2.2.1
  have hnp : ¬w.poisoned = true := by simp [hp]
  constructor
  · intro hm
    refine ⟨?_, rfl, ?_⟩
    · unfold appDrop
      rw [if_neg hnp, if_pos hm]
    · show w.nativeAlive = true
      rw [hna, ha]
  · intro h1
    unfold appDrop
    rw [if_neg hnp, if_neg (by omega)]
    rw [show w.strong - 1 = 0 by omega]

/-- Witness for C2 at concrete worlds: with one outstanding AppRef
(strong count two) the drop ends in the fatal-usage panic with the native
application still alive; with none (strong count one) it ends normally
with slot cleared and native application deleted. -/
theorem c2_drop_behavior_witness :
    (appDrop (liveWorld 2) =
      .panicked .fatalUsage { liveWorld 2 with poisoned := true, appAlive := false }) ∧
    (appDrop (liveWorld 1) =
      .ok { liveWorld 1 with weakSet := false, nativeAlive := false, strong := 0,
                             appAlive := false }) := by
  have h1 : Reachable (liveWorld 1) := Reachable.new Reachable.init (by decide)
  have h2 : Reachable (liveWorld 2) :=
    Reachable.get (c := false) (r := some ()) h1 (by decide)
  exact ⟨((c2_drop_behavior h2 rfl).1 (by decide)).1, (c2_drop_behavior h1 rfl).2 rfl⟩

/-- C4: AppRef.get returns none whenever the Global Weak Slot does not
resolve to a live instance; it returns none immediately whenever the
try_read fails (a writer holds the lock); and when the read lock is free
and unpoisoned while an instance is live it returns a fresh AppRef,
raising the strong count by one.  The function does not depend on which
thread created the App (no thread identity appears in it). -/
theorem c4_get_behavior (c : Bool) (w : World) :
    (¬w.live → (appRefGet c w).1 = none) ∧
      (c = true → (appRefGet c w).1 = none) ∧
      (c = false → w.poisoned = false → w.live →
        appRefGet c w = (some (), { w with strong := w.strong + 1 })) := by
  refine ⟨fun hl => ?_, fun hc => ?_, fun hc hp hl => ?_⟩
  · unfold appRefGet
    by_cases h1 : c = true ∨ w.poisoned = true
    · rw [if_pos h1]
    · rw [if_neg h1, if_neg hl]
  · unfold appRefGet
    rw [if_pos (Or.inl hc)]
  · unfold appRefGet
    rw [if_neg (by simp [hc, hp]), if_pos hl]

/-- Witness for C4 at concrete inputs: an uncontended get on a live world
returns a reference and bumps the count, a contended get on the same world
returns none, and a get on the initial world (no live instance) returns
none. -/
theorem c4_get_behavior_witness :
    appRefGet false (liveWorld 1) = (some (), liveWorld 2) ∧
      (appRefGet true (liveWorld 1)).1 = none ∧
      (appRefGet false initWorld).1 = none := by
  refine ⟨(c4_get_behavior false (liveWorld 1)).2.2 rfl rfl (by decide),
    (c4_get_behavior true (liveWorld 1)).2.1 rfl,
    (c4_get_behavior false initWorld).1 (by decide)⟩

/-- Iterating AppRef.clone adds one strong reference per step and touches
nothing else. -/
theorem cloneRef_iterate (n : Nat) (w : World) :
    (Nat.iterate cloneRef n w).strong = w.strong + n ∧
      (Nat.iterate cloneRef n w).weakSet = w.weakSet ∧
      (Nat.iterate cloneRef n w).appAlive = w.appAlive ∧
      (Nat.iterate cloneRef n w).nativeAlive = w.nativeAlive := by
  induction n with
  | zero => exact ⟨rfl, rfl, rfl, rfl⟩
  | succ k ih =>
    rw [Function.iterate_succ_apply']
    obtain ⟨s, ws, aa, na⟩ := ih
    exact ⟨by show (Nat.iterate cloneRef k w).strong + 1 = _; omega, ws, aa, na⟩

/-- Iterating the AppRef drop removes one strong reference per step and
touches nothing else. -/
theorem dropRef_iterate (n : Nat) (w : World) :
    (Nat.iterate dropRef n w).strong = w.strong - n ∧
      (Nat.iterate dropRef n w).weakSet = w.weakSet ∧
      (Nat.iterate dropRef n w).appAlive = w.appAlive ∧
      (Nat.iterate dropRef n w).nativeAlive = w.nativeAlive := by
  induction n with
  | zero => exact ⟨rfl, rfl, rfl, rfl⟩
  | succ k ih =>
    rw [Function.iterate_succ_apply']
    obtain ⟨s, ws, aa, na⟩ := ih
    exact ⟨by show (Nat.iterate dropRef k w).strong - 1 = _; omega, ws, aa, na⟩

/-- C7: cloning an AppRef n times and dropping n - 1 of the clones leaves
the shared state reachable: the strong count stays positive (for n at
least one it is the original count plus one) and the App, the slot and the
native application are untouched; and each single clone raises the strong
count by exactly one and is a total function (it never fails). -/
theorem c7_clone_n_drop_pred {w : World} (n : Nat) (h : 0 < w.strong) :
    0 < (Nat.iterate dropRef (n - 1) (Nat.iterate cloneRef n w)).strong ∧
      (Nat.iterate dropRef (n - 1) (Nat.iterate cloneRef n w)).strong =
        w.strong + n - (n - 1) ∧
      (Nat.iterate dropRef (n - 1) (Nat.iterate cloneRef n w)).weakSet = w.weakSet ∧
      (Nat.iterate dropRef (n - 1) (Nat.iterate cloneRef n w)).appAlive = w.appAlive ∧
      (Nat.iterate dropRef (n - 1) (Nat.iterate cloneRef n w)).nativeAlive =
        w.nativeAlive ∧
      (∀ v : World, (cloneRef v).strong = v.strong + 1) := by
  obtain ⟨cs, cw, ca, cn⟩ := cloneRef_iterate n w
  obtain ⟨ds, dw, da, dn⟩ := dropRef_iterate (n - 1) (Nat.iterate cloneRef n w)
  rw [ds, dw, da, dn, cs, cw, ca, cn]
  exact ⟨by omega, by omega, rfl, rfl, rfl, fun v => rfl⟩

/-- Witness for C7: three clones and two drops on a live world with one
reference leave the count at two and everything else intact. -/
theorem c7_clone_n_drop_pred_witness :
    0 < (Nat.iterate dropRef 2 (Nat.iterate cloneRef 3 (liveWorld 1))).strong ∧
      (Nat.iterate dropRef 2 (Nat.iterate cloneRef 3 (liveWorld 1))).strong =
        1 + 3 - 2 ∧
      (Nat.iterate dropRef 2 (Nat.iterate cloneRef 3 (liveWorld 1))).weakSet = true ∧
      (Nat.iterate dropRef 2 (Nat.iterate cloneRef 3 (liveWorld 1))).appAlive = true ∧
      (Nat.iterate dropRef 2 (Nat.iterate cloneRef 3 (liveWorld 1))).nativeAlive =
        true ∧
      (∀ v : World, (cloneRef v).strong = v.strong + 1) :=
  c7_clone_n_drop_pred 3 (by decide)

/-- C9: from an unpoisoned world whose slot resolves to a live instance,
a second App.new as well as a drop with outstanding AppRef handles each
end in the fatal-usage panic with the write guard held, leaving the
RwLock poisoned; the leaked state keeps its strong count and the native
application stays alive; and in any poisoned world every AppRef.get
returns none (try_read fails) while every App.new ends in the
poisoned-lock panic on acquiring the write lock. -/
theorem c9_poisoned_lock {w : World} (hp : w.poisoned = false) (hw : w.weakSet = true)
    (hs : 0 < w.strong) :
    appNew w = .panicked .fatalUsage { w with poisoned := true } ∧
      (1 < w.strong →
        appDrop w = .panicked .fatalUsage { w with poisoned := true, appAlive := false } ∧
          ({ w with poisoned := true, appAlive := false } : World).strong = w.strong ∧
          ({ w with poisoned := true, appAlive := false } : World).nativeAlive =
            w.nativeAlive) ∧
      (∀ w' : World, w'.poisoned = true →
        (∀ c : Bool, (appRefGet c w').1 = none) ∧
          appNew w' = .panicked .poisonedLock w') := by
  have hnp : ¬w.poisoned = true := by simp [hp]
  refine ⟨?_, fun hm => ⟨?_, rfl, rfl⟩, fun w' hp' => ⟨fun c => ?_, ?_⟩⟩
  · unfold appNew
    rw [if_neg hnp, if_pos ⟨hw, hs⟩]
  · unfold appDrop
    rw [if_neg hnp, if_pos hm]
  · unfold appRefGet
    rw [if_pos (Or.inr hp')]
  · unfold appNew
    rw [if_pos hp']

/-- Witness for C9 at a concrete world: slot live, one outstanding AppRef
(strong count two), lock unpoisoned. -/
theorem c9_poisoned_lock_witness :
    appNew (liveWorld 2) = .panicked .fatalUsage { liveWorld 2 with poisoned := true } ∧
      (1 < 2 →
        appDrop (liveWorld 2) =
          .panicked .fatalUsage { liveWorld 2 with poisoned := true, appAlive := false } ∧
          ({ liveWorld 2 with poisoned := true, appAlive := false } : World).strong = 2 ∧
          ({ liveWorld 2 with poisoned := true, appAlive := false } : World).nativeAlive
            = true) ∧
      (∀ w' : World, w'.poisoned = true →
        (∀ c : Bool, (appRefGet c w').1 = none) ∧
          appNew w' = .panicked .poisonedLock w') :=
  c9_poisoned_lock rfl rfl (by decide)

/-- C10: no QuickView operation reads or mutates the application-side
state: QuickView.new ignores its App argument at runtime, and new,
set_source, show and the drop handler each leave the application
component of the state (Global Weak Slot, reference counts, native
application) exactly as it was. -/
theorem c10_view_frame :
    (∀ (a a' : World) (g : GuiWorld), quickViewNew a g = quickViewNew a' g) ∧
      (∀ (a : World) (g : GuiWorld), (quickViewNew a g).app = g.app) ∧
      (∀ (u : List Char) (g : GuiWorld), (quickViewSetSource u g).app = g.app) ∧
      (∀ g : GuiWorld, (quickViewShow g).app = g.app) ∧
      (∀ g : GuiWorld, (quickViewDrop g).app = g.app) :=
  ⟨fun _ _ _ => rfl, fun _ _ => rfl, fun _ _ => rfl, fun _ => rfl, fun _ => rfl⟩

/-- C5: the extern log callback returns normally for every invocation,
whatever the native arguments and whatever the host logging machinery
does while the record is forwarded: any panic is caught at the boundary by
catch_unwind and discarded. -/
theorem c5_callback_never_unwinds :
    ∀ (emit : LogRecord → Except HostPanic Unit) (level : ClueLogLevel)
      (msg file : List Nat) (line : Nat) (target : List Nat),
      log emit level msg file line target = .ok () := by
  intro emit level msg file line target
  unfold log
  cases catchUnwind (forward_log emit level msg file line target) <;> rfl

/-- C8: forward_log maps the native severity one-to-one onto the host
levels, Error to Error, Warn to Warn, Info to Info, Debug to Debug and
Trace to Trace, and for every severity value the record it emits carries
exactly that mapped level. -/
theorem c8_level_mapping :
    forwardLevel .ClueLogLevelError = .Error ∧
      forwardLevel .ClueLogLevelWarn = .Warn ∧
      forwardLevel .ClueLogLevelInfo = .Info ∧
      forwardLevel .ClueLogLevelDebug = .Debug ∧
      forwardLevel .ClueLogLevelTrace = .Trace ∧
      (∀ (emit : LogRecord → Except HostPanic Unit) (level : ClueLogLevel)
        (msg file : List Nat) (line : Nat) (target : List Nat),
        forward_log emit level msg file line target =
          emit { level := forwardLevel level, target := utf8DecodeLossy target,
                 file := utf8DecodeLossy file, line := line,
                 msg := utf8DecodeLossy msg }) := by
  refine ⟨rfl, rfl, rfl, rfl, rfl, fun emit level msg file line target => ?_⟩
  cases level <;> rfl

/-- C3, evaluated at the process argument list consisting of the single
argument prog: argc is the argument count and argv points at the captured
buffers as the claim states, but each captured buffer holds exactly the
argument's UTF-8 bytes with no trailing NUL byte, so the buffers are not
null-terminated (the last byte of the only buffer is the letter g,
byte 103, not 0). -/
theorem c3_args_not_null_terminated :
    (AppExtra.new [String.mk ['p', 'r', 'o', 'g']]).argc = 1 ∧
      (AppExtra.new [String.mk ['p', 'r', 'o', 'g']]).argv = [0] ∧
      (AppExtra.new [String.mk ['p', 'r', 'o', 'g']]).args = [[112, 114, 111, 103]] ∧
      List.getLast? [112, 114, 111, 103] = some 103 ∧ (103 : Nat) ≠ 0 := by
  refine ⟨by decide, by decide, by decide, by decide, by decide⟩

/-- Each decoding step consumes at least one byte: the resumption list of
utf8DecodeStep is no longer than the input tail. -/
theorem utf8DecodeStep_len (b0 : Nat) (bs : List Nat) :
    (utf8DecodeStep b0 bs).2.length ≤ bs.length := by
  rcases bs with _ | ⟨b1, _ | ⟨b2, _ | ⟨b3, bs3⟩⟩⟩ <;>
    · simp only [utf8DecodeStep]
      split_ifs <;> simp <;> omega

/-- The decoding loop does not depend on the exact fuel, as long as the
fuel covers the byte count. -/
theorem utf8DecodeLoop_fuel (fuel : Nat) :
    ∀ (fuel' : Nat) (l : List Nat), l.length ≤ fuel → l.length ≤ fuel' →
      utf8DecodeLoop fuel l = utf8DecodeLoop fuel' l := by
  induction fuel with
  | zero =>
    intro fuel' l h h'
    have hl : l = [] := List.length_eq_zero.mp (Nat.le_zero.mp h)
    subst hl
    cases fuel' <;> rfl
  | succ k ih =>
    intro fuel' l h h'
    cases l with
    | nil => cases fuel' <;> rfl
    | cons b0 bs =>
      cases fuel' with
      | zero =>
        rw [List.length_cons] at h'
        omega
      | succ k' =>
        show (utf8DecodeStep b0 bs).1 ::
            utf8DecodeLoop k (utf8DecodeStep b0 bs).2 =
          (utf8DecodeStep b0 bs).1 ::
            utf8DecodeLoop k' (utf8DecodeStep b0 bs).2
        have hlen := utf8DecodeStep_len b0 bs
        rw [List.length_cons] at h h'
        rw [ih k' (utf8DecodeStep b0 bs).2 (by omega) (by omega)]

/-- Unfolding the decoder one character at a time. -/
theorem utf8DecodeLossy_cons (b0 : Nat) (bs : List Nat) :
    utf8DecodeLossy (b0 :: bs) =
      (utf8DecodeStep b0 bs).1 :: utf8DecodeLossy (utf8DecodeStep b0 bs).2 := by
  show utf8DecodeLoop (b0 :: bs).length (b0 :: bs) = _
  rw [List.length_cons]
  show (utf8DecodeStep b0 bs).1 ::
      utf8DecodeLoop bs.length (utf8DecodeStep b0 bs).2 = _
  rw [utf8DecodeLoop_fuel bs.length (utf8DecodeStep b0 bs).2.length
    (utf8DecodeStep b0 bs).2 (utf8DecodeStep_len b0 bs) (Nat.le_refl _)]
  rfl

/-- Decoder step on an ASCII byte. -/
theorem utf8DecodeStep_ascii {b0 : Nat} (bs : List Nat) (h : b0 < 0x80) :
    utf8DecodeStep b0 bs = (Char.ofNat b0, bs) := by
  unfold utf8DecodeStep
  rw [if_pos h]

/-- Decoder step on a well-formed two-byte sequence. -/
theorem utf8DecodeStep_two {b0 b1 : Nat} (bs : List Nat) (h1 : 0xC2 ≤ b0)
    (h2 : b0 < 0xE0) (hK : IsCont b1) :
    utf8DecodeStep b0 (b1 :: bs) =
      (Char.ofNat ((b0 - 0xC0) * 64 + (b1 - 0x80)), bs) := by
  unfold utf8DecodeStep
  rw [if_neg (by omega), if_neg (by omega), if_pos h2]
  show (if IsCont b1 then (Char.ofNat ((b0 - 0xC0) * 64 + (b1 - 0x80)), bs)
    else (replChar, b1 :: bs)) = _
  rw [if_pos hK]

/-- Decoder step on a well-formed three-byte sequence. -/
theorem utf8DecodeStep_three {b0 b1 b2 : Nat} (bs : List Nat) (h1 : 0xE0 ≤ b0)
    (h2 : b0 < 0xF0) (hK3 : Cont3 b0 b1) (hK : IsCont b2) :
    utf8DecodeStep b0 (b1 :: b2 :: bs) =
      (Char.ofNat ((b0 - 0xE0) * 4096 + (b1 - 0x80) * 64 + (b2 - 0x80)), bs) := by
  unfold utf8DecodeStep
  rw [if_neg (by omega), if_neg (by omega), if_neg (by omega), if_pos h2]
  show (if Cont3 b0 b1 ∧ IsCont b2 then
      (Char.ofNat ((b0 - 0xE0) * 4096 + (b1 - 0x80) * 64 + (b2 - 0x80)), bs)
    else (replChar, b1 :: b2 :: bs)) = _
  rw [if_pos ⟨hK3, hK⟩]

/-- Decoder step on a well-formed four-byte sequence. -/
theorem utf8DecodeStep_four {b0 b1 b2 b3 : Nat} (bs : List Nat) (h1 : 0xF0 ≤ b0)
    (h2 : b0 ≤ 0xF4) (hK4 : Cont4 b0 b1) (hKa : IsCont b2) (hKb : IsCont b3) :
    utf8DecodeStep b0 (b1 :: b2 :: b3 :: bs) =
      (Char.ofNat ((b0 - 0xF0) * 262144 + (b1 - 0x80) * 4096 +
          (b2 - 0x80) * 64 + (b3 - 0x80)), bs) := by
  unfold utf8DecodeStep
  rw [if_neg (by omega), if_neg (by omega), if_neg (by omega), if_neg (by omega),
    if_pos h2]
  show (if Cont4 b0 b1 ∧ IsCont b2 ∧ IsCont b3 then
      (Char.ofNat ((b0 - 0xF0) * 262144 + (b1 - 0x80) * 4096 +
          (b2 - 0x80) * 64 + (b3 - 0x80)), bs)
    else (replChar, b1 :: b2 :: b3 :: bs)) = _
  rw [if_pos ⟨hK4, hKa, hKb⟩]

set_option maxRecDepth 8000 in
/-- The lossy decoder inverts the encoder on one scalar value: the bytes
of a valid character followed by anything decode to that character
followed by the decoding of the remainder. -/
theorem utf8DecodeLossy_encodeChar (c : Char) (rest : List Nat) :
    utf8DecodeLossy (utf8EncodeChar c ++ rest) = c :: utf8DecodeLossy rest := by
  have hv : c.toNat < 0xd800 ∨ (0xdfff < c.toNat ∧ c.toNat < 0x110000) := c.valid
  by_cases h1 : c.toNat < 0x80
  · have e1 : utf8EncodeChar c = [c.toNat] := by simp [utf8EncodeChar, h1]
    rw [e1]
    simp only [List.cons_append, List.nil_append]
    rw [utf8DecodeLossy_cons, utf8DecodeStep_ascii rest h1, Char.ofNat_toNat]
  · by_cases h2 : c.toNat < 0x800
    · have e1 : utf8EncodeChar c = [0xC0 + c.toNat / 64, 0x80 + c.toNat % 64] := by
        simp [utf8EncodeChar, h1, h2]
      rw [e1]
      simp only [List.cons_append, List.nil_append]
      rw [utf8DecodeLossy_cons,
        utf8DecodeStep_two rest (by omega) (by omega) (by unfold IsCont; omega)]
      show Char.ofNat ((0xC0 + c.toNat / 64 - 0xC0) * 64 +
          (0x80 + c.toNat % 64 - 0x80)) :: utf8DecodeLossy rest =
        c :: utf8DecodeLossy rest
      congr 1
      conv_rhs => rw [← Char.ofNat_toNat c]
      congr 1
      omega
    · by_cases h3 : c.toNat < 0x10000
      · have e1 : utf8EncodeChar c =
            [0xE0 + c.toNat / 4096, 0x80 + c.toNat / 64 % 64, 0x80 + c.toNat % 64] := by
          simp [utf8EncodeChar, h1, h2, h3]
        rw [e1]
        simp only [List.cons_append, List.nil_append]
        rw [utf8DecodeLossy_cons,
          utf8DecodeStep_three rest (by omega) (by omega)
            (by unfold Cont3 IsCont; omega) (by unfold IsCont; omega)]
        show Char.ofNat ((0xE0 + c.toNat / 4096 - 0xE0) * 4096 +
            (0x80 + c.toNat / 64 % 64 - 0x80) * 64 + (0x80 + c.toNat % 64 - 0x80)) ::
            utf8DecodeLossy rest = c :: utf8DecodeLossy rest
        congr 1
        conv_rhs => rw [← Char.ofNat_toNat c]
        congr 1
        omega
      · have h4 : c.toNat < 0x110000 := by omega
        have e1 : utf8EncodeChar c =
            [0xF0 + c.toNat / 262144, 0x80 + c.toNat / 4096 % 64,
              0x80 + c.toNat / 64 % 64, 0x80 + c.toNat % 64] := by
          simp [utf8EncodeChar, h1, h2, h3]
        rw [e1]
        simp only [List.cons_append, List.nil_append]
        rw [utf8DecodeLossy_cons,
          utf8DecodeStep_four rest (by omega) (by omega)
            (by unfold Cont4 IsCont; omega) (by unfold IsCont; omega)
            (by unfold IsCont; omega)]
        show Char.ofNat ((0xF0 + c.toNat / 262144 - 0xF0) * 262144 +
            (0x80 + c.toNat / 4096 % 64 - 0x80) * 4096 +
            (0x80 + c.toNat / 64 % 64 - 0x80) * 64 + (0x80 + c.toNat % 64 - 0x80)) ::
            utf8DecodeLossy rest = c :: utf8DecodeLossy rest
        congr 1
        conv_rhs => rw [← Char.ofNat_toNat c]
        congr 1
        omega

/-- The lossy decoder inverts the encoder on every character sequence. -/
theorem utf8DecodeLossy_encodeStr (l : List Char) :
    utf8DecodeLossy (utf8EncodeStr l) = l := by
  induction l with
  | nil => rfl
  | cons c cs ih =>
    show utf8DecodeLossy (utf8EncodeChar c ++ utf8EncodeStr cs) = c :: cs
    rw [utf8DecodeLossy_encodeChar, ih]

/-- C6: setting the application name to any string and reading it back
returns that very string (UTF-8 encoding through the native surface and
lossy decoding on the way out cancel), and for an arbitrary byte buffer
held by the native side, name returns its total replacement-decoding
(never a failure); in particular the invalid byte 0xFF decodes to the
replacement character. -/
theorem c6_name_roundtrip :
    (∀ (s : String) (n : NativeApp), nameString (setNameString s n) = s) ∧
      (∀ bs : List Nat, nameString { name := bs } = String.mk (utf8DecodeLossy bs)) ∧
      nameString { name := [0xFF] } = String.mk [replChar] := by
  refine ⟨fun s n => ?_, fun bs => rfl, rfl⟩
  show String.mk (utf8DecodeLossy (utf8EncodeStr s.data)) = s
  rw [utf8DecodeLossy_encodeStr]

end Qui
